import Mathlib

/-!
Verification development for `src/vs/workbench/common/resources.ts`:
the `ResourceContextKey` fact synchronizer and the `DataUri.parseMetaData`
helper.  JavaScript strings are embedded as `List Char` where index
arithmetic matters, and as Lean `String` where only equality is used.
A JavaScript value that may be `undefined` is embedded as an `Option`.
-/

/-- A resource URI as this component sees it: a scheme plus a
filesystem-style path (`vs/base/common/uri`).  Only these two pieces are
read by the code under verification. -/
structure URI where
  scheme : String
  path : String
deriving DecidableEq, Repr

/-- Modelled from the spec: `URI.fsPath`.  The URI class is an external
collaborator ("URI parsing" is out of scope); the spec derives every
path-based fact from the resource's filesystem-style path, so `fsPath`
is the resource's path. -/
def URI.fsPath (u : URI) : String := u.path

/-- Modelled from the spec: the injected external collaborators — path
utilities (`basename`, `extname`), the language resolver
(`resolve(path) -> string | absent`, i.e. `IModeService.
getModeIdByFilepathOrFirstLine`), and the capability service answer
(`canHandle(resource) -> boolean`, i.e. `IFileService.canHandleResource`). -/
structure Services where
  basename : String → String
  extname : String → String
  getModeIdByFilepathOrFirstLine : String → Option String
  canHandleResource : URI → Bool

/-- Modelled from the spec: `Schemas.untitled`, the reserved scheme
denoting an unsaved, in-memory document. -/
def untitledScheme : String := "untitled"

/-- The eight bound context keys of `ResourceContextKey`, each holding the
value currently stored for it in the context key store.  A key whose
value may be `undefined` is an `Option`. -/
structure FactState where
  resource : Option URI
  scheme : Option String
  filename : Option String
  langId : Option String
  extension : Option String
  hasResource : Bool
  isFileSystemResource : Option Bool
  isFileSystemResourceOrUntitled : Bool
deriving DecidableEq, Repr

namespace ResourceContextKey

/-- The state right after construction: `bindTo` initialises every key to
its `RawContextKey` default (`undefined` for the five resource-derived
keys, `false` for the three boolean keys). -/
def initialState : FactState :=
  { resource := none
    scheme := none
    filename := none
    langId := none
    extension := none
    hasResource := false
    isFileSystemResource := some false
    isFileSystemResourceOrUntitled := false }

/-- The JavaScript expression
`this._isfileSystemResource.get() || this._schemeKey.get() === Schemas.untitled`:
a stored `true` short-circuits, otherwise (`false` or `undefined` are both
falsy) the result is the strict-equality test of the stored scheme against
the untitled scheme. -/
def orUntitled (isFSR : Option Bool) (scheme : Option String) : Bool :=
  match isFSR with
  | some true => true
  | _ => scheme == some untitledScheme

/-- `ResourceContextKey.set(value)`: writes the eight keys in source
order.  When `value` is absent, each `value && e` expression evaluates to
the absent value itself, so the five derived keys and
`isFileSystemResource` are set to `undefined`, `hasResource` to `!!value
= false`; the final key reads the two keys just written. -/
def set (svc : Services) (value : Option URI) (s : FactState) : FactState :=
  match value with
  | some v =>
    let isFSR : Option Bool := some (svc.canHandleResource v)
    { resource := some v
      scheme := some v.scheme
      filename := some (svc.basename v.fsPath)
      langId := svc.getModeIdByFilepathOrFirstLine v.fsPath
      extension := some (svc.extname v.fsPath)
      hasResource := true
      isFileSystemResource := isFSR
      isFileSystemResourceOrUntitled := orUntitled isFSR (some v.scheme) }
  | none =>
    { resource := none
      scheme := none
      filename := none
      langId := none
      extension := none
      hasResource := false
      isFileSystemResource := none
      isFileSystemResourceOrUntitled := orUntitled none none }

/-- `ResourceContextKey.reset()`: resets `_schemeKey`, `_langIdKey`
(twice in the source), `_resourceKey`, `_extensionKey` and `_hasResource`
to their declared defaults.  The source does not reset `_filenameKey`,
`_isfileSystemResource` or `_isFileSystemResourceOrUntitled`. -/
def reset (s : FactState) : FactState :=
  { s with
    scheme := none
    langId := none
    resource := none
    extension := none
    hasResource := false }

/-- `ResourceContextKey.get()`: returns the stored resource key value. -/
def get (s : FactState) : Option URI := s.resource

/-- The handler registered on
`onDidChangeFileSystemProviderRegistrations`: re-reads the held resource,
recomputes `_isfileSystemResource` (`resource && canHandleResource(resource)`)
with the capability service's current answer `canHandle`, then recomputes
`_isFileSystemResourceOrUntitled` from the key just written and the stored
scheme. -/
def onCapabilityChange (canHandle : URI → Bool) (s : FactState) : FactState :=
  let isFSR : Option Bool := (get s).map canHandle
  { s with
    isFileSystemResource := isFSR
    isFileSystemResourceOrUntitled := orUntitled isFSR s.scheme }

/-- The synchronizer object: its fact state plus whether its subscription
to capability-change notifications is still active. -/
structure Synchronizer where
  facts : FactState
  subscribed : Bool
deriving DecidableEq, Repr

/-- The synchronizer right after construction: the subscription to the
capability service has been wired (`this._register(...)`). -/
def construct : Synchronizer := { facts := initialState, subscribed := true }

/-- Modelled from the spec: `Disposable.dispose` (the `Disposable` base
class of `vs/base/common/lifecycle` is not part of the snippet).  Disposal
cancels the capability-change subscription registered at construction. -/
def dispose (syn : Synchronizer) : Synchronizer :=
  { syn with subscribed := false }

/-- Modelled from the spec: event delivery.  A capability-change
notification runs the registered handler only while the subscription is
active; after disposal the cancelled subscription no longer invokes it. -/
def deliverCapabilityChange (canHandle : URI → Bool) (syn : Synchronizer) : Synchronizer :=
  if syn.subscribed then
    { syn with facts := onCapabilityChange canHandle syn.facts }
  else syn

end ResourceContextKey

/-- Invariant I2 as the claims state it: the stored
`isFileSystemResourceOrUntitled` fact equals the logical OR of the stored
`isFileSystemResource` fact (truthy exactly when it stores `true`) and
the test of the stored scheme fact against the untitled scheme. -/
def i2holds (s : FactState) : Prop :=
  s.isFileSystemResourceOrUntitled =
    ((s.isFileSystemResource == some true) || (s.scheme == some untitledScheme))

instance (s : FactState) : Decidable (i2holds s) := by
  unfold i2holds; infer_instance

/-- States reachable from the construction-time state by any sequence of
`set` calls and capability-change notifications (no `reset`). -/
inductive ReachableSetNotify : FactState → Prop
  | init : ReachableSetNotify ResourceContextKey.initialState
  | set (svc : Services) (v : Option URI) {s : FactState} :
      ReachableSetNotify s → ReachableSetNotify (ResourceContextKey.set svc v s)
  | notify (ch : URI → Bool) {s : FactState} :
      ReachableSetNotify s → ReachableSetNotify (ResourceContextKey.onCapabilityChange ch s)

lemma orUntitled_eq_or (o : Option Bool) (sc : Option String) :
    ResourceContextKey.orUntitled o sc =
      ((o == some true) || (sc == some untitledScheme)) := by
  rcases o with _ | b
  · rfl
  · cases b <;> rfl

/-- A concrete service instantiation used by witnesses: identity path
utilities, no language, every resource rejected by the capability
service. -/
def svcNone : Services :=
  { basename := fun p => p
    extname := fun _ => ""
    getModeIdByFilepathOrFirstLine := fun _ => none
    canHandleResource := fun _ => false }

/-- A concrete service instantiation used by witnesses: every resource
accepted by the capability service. -/
def svcAll : Services :=
  { basename := fun p => p
    extname := fun _ => ""
    getModeIdByFilepathOrFirstLine := fun _ => none
    canHandleResource := fun _ => true }

/-- A concrete untitled-scheme resource used by witnesses. -/
def uriUntitled : URI := { scheme := "untitled", path := "Untitled-1" }

/-- A concrete file-scheme resource used by witnesses. -/
def uriFile : URI := { scheme := "file", path := "/a/b.txt" }

/-- C1: for every resource R, after `set(R)` the stored facts are derived
from R: `get()` returns R, the scheme fact is R.scheme, the filename fact
is `basename` of R's path, the extension fact is `extname` of R's path,
`hasResource` is true, and `isFileSystemResourceOrUntitled` equals the OR
of the stored `isFileSystemResource` fact and the stored scheme fact
being the untitled scheme. -/
theorem c1_set_derives_facts (svc : Services) (R : URI) (s : FactState) :
    ResourceContextKey.get (ResourceContextKey.set svc (some R) s) = some R ∧
    (ResourceContextKey.set svc (some R) s).scheme = some R.scheme ∧
    (ResourceContextKey.set svc (some R) s).filename = some (svc.basename R.path) ∧
    (ResourceContextKey.set svc (some R) s).extension = some (svc.extname R.path) ∧
    (ResourceContextKey.set svc (some R) s).hasResource = true ∧
    (ResourceContextKey.set svc (some R) s).isFileSystemResourceOrUntitled =
      (((ResourceContextKey.set svc (some R) s).isFileSystemResource == some true) ||
        ((ResourceContextKey.set svc (some R) s).scheme == some untitledScheme)) := by
  refine ⟨rfl, rfl, rfl, rfl, rfl, ?_⟩
  simp [ResourceContextKey.set, orUntitled_eq_or]

/-- C2 counterexample: the claim quantifies over sequences that include
`reset`, but after `set` of an untitled resource rejected by the
capability service, `reset` clears the scheme fact while leaving
`isFileSystemResourceOrUntitled` at `true`, so invariant I2 fails in a
reachable state. -/
theorem c2_reset_breaks_i2 :
    ¬ i2holds (ResourceContextKey.reset
        (ResourceContextKey.set svcNone (some uriUntitled)
          ResourceContextKey.initialState)) := by
  decide

/-- C2 (amended): invariant I2 holds in every state reachable from the
construction-time state by sequences of `set` calls and capability-change
notifications; `reset` is excluded, since it can leave
`isFileSystemResourceOrUntitled` stale. -/
theorem c2_i2_reachable_set_notify (s : FactState) (h : ReachableSetNotify s) :
    i2holds s := by
  induction h with
  | init => decide
  | set svc v ih =>
    cases v with
    | none => simp [i2holds, ResourceContextKey.set, orUntitled_eq_or]
    | some v => simp [i2holds, ResourceContextKey.set, orUntitled_eq_or]
  | notify ch ih =>
    simp [i2holds, ResourceContextKey.onCapabilityChange, orUntitled_eq_or]

/-- C2 witness: a concrete reachable state satisfying invariant I2. -/
theorem c2_i2_reachable_set_notify_witness :
    i2holds (ResourceContextKey.set svcAll (some uriFile)
      ResourceContextKey.initialState) :=
  c2_i2_reachable_set_notify _
    (ReachableSetNotify.set svcAll (some uriFile) ReachableSetNotify.init)

/-- C3: for a held resource R, a capability-change notification sets
`isFileSystemResource` to the capability service's current answer for R,
recomputes `isFileSystemResourceOrUntitled` from it and the stored
scheme, and leaves resource, scheme, filename, langId and extension
exactly unchanged. -/
theorem c3_notify_recomputes_only_fs (ch : URI → Bool) (R : URI) (s : FactState)
    (h : s.resource = some R) :
    (ResourceContextKey.onCapabilityChange ch s).isFileSystemResource = some (ch R) ∧
    (ResourceContextKey.onCapabilityChange ch s).isFileSystemResourceOrUntitled =
      ((some (ch R) == some true) || (s.scheme == some untitledScheme)) ∧
    (ResourceContextKey.onCapabilityChange ch s).resource = s.resource ∧
    (ResourceContextKey.onCapabilityChange ch s).scheme = s.scheme ∧
    (ResourceContextKey.onCapabilityChange ch s).filename = s.filename ∧
    (ResourceContextKey.onCapabilityChange ch s).langId = s.langId ∧
    (ResourceContextKey.onCapabilityChange ch s).extension = s.extension := by
  refine ⟨?_, ?_, rfl, rfl, rfl, rfl, rfl⟩
  · simp [ResourceContextKey.onCapabilityChange, ResourceContextKey.get, h]
  · simp [ResourceContextKey.onCapabilityChange, ResourceContextKey.get, h,
      orUntitled_eq_or]

/-- C3 witness: after setting a file resource while the capability
service rejects everything, a notification under an accepting capability
service flips `isFileSystemResource` to true. -/
theorem c3_notify_recomputes_only_fs_witness :
    (ResourceContextKey.onCapabilityChange (fun _ => true)
      (ResourceContextKey.set svcNone (some uriFile)
        ResourceContextKey.initialState)).isFileSystemResource = some true :=
  (c3_notify_recomputes_only_fs (fun _ => true) uriFile _ rfl).1

/-- C4: the claim says `reset()` restores every fact `set` can alter to
its declared default, returning the fact set to its construction-time
state.  The code omits `filename`, `isFileSystemResource` and
`isFileSystemResourceOrUntitled` from `reset`: after setting a file
resource accepted by the capability service and then resetting, those
three facts keep their pre-reset values and the state differs from the
construction-time state. -/
theorem c4_reset_omits_three_facts :
    (ResourceContextKey.reset (ResourceContextKey.set svcAll (some uriFile)
      ResourceContextKey.initialState)).filename = some "/a/b.txt" ∧
    (ResourceContextKey.reset (ResourceContextKey.set svcAll (some uriFile)
      ResourceContextKey.initialState)).isFileSystemResource = some true ∧
    (ResourceContextKey.reset (ResourceContextKey.set svcAll (some uriFile)
      ResourceContextKey.initialState)).isFileSystemResourceOrUntitled = true ∧
    ResourceContextKey.reset (ResourceContextKey.set svcAll (some uriFile)
      ResourceContextKey.initialState) ≠ ResourceContextKey.initialState := by
  refine ⟨rfl, rfl, rfl, ?_⟩
  decide

/-- C5: after `set(R)` followed by `reset()`, the facts scheme, langId,
resource, extension and hasResource are at their declared defaults, while
filename, isFileSystemResource and isFileSystemResourceOrUntitled retain
exactly the values they held immediately before the reset. -/
theorem c5_reset_frame (svc : Services) (R : URI) (s : FactState) :
    (ResourceContextKey.reset (ResourceContextKey.set svc (some R) s)).scheme = none ∧
    (ResourceContextKey.reset (ResourceContextKey.set svc (some R) s)).langId = none ∧
    (ResourceContextKey.reset (ResourceContextKey.set svc (some R) s)).resource = none ∧
    (ResourceContextKey.reset (ResourceContextKey.set svc (some R) s)).extension = none ∧
    (ResourceContextKey.reset (ResourceContextKey.set svc (some R) s)).hasResource = false ∧
    (ResourceContextKey.reset (ResourceContextKey.set svc (some R) s)).filename =
      (ResourceContextKey.set svc (some R) s).filename ∧
    (ResourceContextKey.reset (ResourceContextKey.set svc (some R) s)).isFileSystemResource =
      (ResourceContextKey.set svc (some R) s).isFileSystemResource ∧
    (ResourceContextKey.reset (ResourceContextKey.set svc (some R) s)).isFileSystemResourceOrUntitled =
      (ResourceContextKey.set svc (some R) s).isFileSystemResourceOrUntitled :=
  ⟨rfl, rfl, rfl, rfl, rfl, rfl, rfl, rfl⟩

/-- C6: `set` with an absent resource is total (the embedding is a total
function, mirroring the straight-line source which can raise no error)
and clears resource, scheme, filename, langId and extension to absent
while setting hasResource to false. -/
theorem c6_set_absent_clears (svc : Services) (s : FactState) :
    (ResourceContextKey.set svc none s).resource = none ∧
    (ResourceContextKey.set svc none s).scheme = none ∧
    (ResourceContextKey.set svc none s).filename = none ∧
    (ResourceContextKey.set svc none s).langId = none ∧
    (ResourceContextKey.set svc none s).extension = none ∧
    (ResourceContextKey.set svc none s).hasResource = false :=
  ⟨rfl, rfl, rfl, rfl, rfl, rfl⟩

/-- C7: after the synchronizer is disposed, a capability-change
notification delivered afterwards writes nothing: the fact state is
unchanged. -/
theorem c7_no_write_after_dispose (ch : URI → Bool)
    (syn : ResourceContextKey.Synchronizer) :
    (ResourceContextKey.deliverCapabilityChange ch
      (ResourceContextKey.dispose syn)).facts =
      (ResourceContextKey.dispose syn).facts := by
  simp [ResourceContextKey.deliverCapabilityChange, ResourceContextKey.dispose]

/-- C10: `set` with an absent resource never consults the capability
service (the result is the same for every service instantiation), stores
the absent value — not the declared default `false` — in
`isFileSystemResource`, and stores `false` in
`isFileSystemResourceOrUntitled`. -/
theorem c10_set_absent_fs_facts (svc : Services) (s : FactState) :
    (ResourceContextKey.set svc none s).isFileSystemResource = none ∧
    (ResourceContextKey.set svc none s).isFileSystemResource ≠ some false ∧
    (ResourceContextKey.set svc none s).isFileSystemResourceOrUntitled = false ∧
    ∀ svc2 : Services, ResourceContextKey.set svc none s =
      ResourceContextKey.set svc2 none s :=
  ⟨rfl, fun h => Option.noConfusion h, rfl, fun _ => rfl⟩

namespace DataUri

/-- First index of a character in a list, if it occurs. -/
def idxOf? (c : Char) : List Char → Option Nat
  | [] => none
  | x :: xs => if x == c then some 0 else (idxOf? c xs).map (· + 1)

/-- Last index of a character in a list, if it occurs. -/
def lastIdxOf? (c : Char) : List Char → Option Nat
  | [] => none
  | x :: xs =>
    match lastIdxOf? c xs with
    | some k => some (k + 1)
    | none => if x == c then some 0 else none

/-- JavaScript `String.prototype.indexOf` for a one-character needle:
the first index, or -1 when absent. -/
def jsIndexOf (c : Char) (l : List Char) : Int :=
  match idxOf? c l with
  | some i => (i : Int)
  | none => -1

/-- JavaScript `String.prototype.lastIndexOf` for a one-character
needle: the last index, or -1 when absent. -/
def jsLastIndexOf (c : Char) (l : List Char) : Int :=
  match lastIdxOf? c l with
  | some j => (j : Int)
  | none => -1

/-- JavaScript `String.prototype.substring`: both arguments are clamped
into [0, length] (negative values become 0) and swapped when the start
exceeds the end. -/
def jsSubstring (l : List Char) (a b : Int) : List Char :=
  let ca : Nat := (min a (l.length : Int)).toNat
  let cb : Nat := (min b (l.length : Int)).toNat
  (l.drop (min ca cb)).take (max ca cb - min ca cb)

/-- JavaScript `String.prototype.split` with a one-character separator:
always returns at least one (possibly empty) field. -/
def splitOnChar (c : Char) : List Char → List (List Char)
  | [] => [[]]
  | x :: xs =>
    let r := splitOnChar c xs
    if x == c then [] :: r
    else
      match r with
      | h :: t => (x :: h) :: t
      | [] => [[x]]

/-- JavaScript `Map.prototype.set`: overwrite in place when the key is
already present (keeping its position), append otherwise. -/
def mapSet (m : List (List Char × List Char)) (k v : List Char) :
    List (List Char × List Char) :=
  if m.any (fun p => p.1 == k) then
    m.map (fun p => if p.1 == k then (k, v) else p)
  else m ++ [(k, v)]

/-- `Map.prototype.get`: the value stored under a key. -/
def mapGet (m : List (List Char × List Char)) (k : List Char) :
    Option (List Char) :=
  (m.find? (fun p => p.1 == k)).map (fun p => p.2)

/-- `DataUri.META_DATA_LABEL`. -/
def META_DATA_LABEL : List Char := ['l', 'a', 'b', 'e', 'l']

/-- `DataUri.META_DATA_DESCRIPTION`. -/
def META_DATA_DESCRIPTION : List Char :=
  ['d', 'e', 's', 'c', 'r', 'i', 'p', 't', 'i', 'o', 'n']

/-- `DataUri.META_DATA_SIZE`. -/
def META_DATA_SIZE : List Char := ['s', 'i', 'z', 'e']

/-- `DataUri.META_DATA_MIME`. -/
def META_DATA_MIME : List Char := ['m', 'i', 'm', 'e']

/-- The body of the `forEach` callback in `parseMetaData`:
`const [key, value] = property.split(':')` takes the first two fields of
the full split (later fields are dropped, and `value` is absent when
there is no `:`), and the entry is stored only when both are non-empty
(JavaScript truthiness of strings). -/
def tokenStep (m : List (List Char × List Char)) (prop : List Char) :
    List (List Char × List Char) :=
  match splitOnChar ':' prop with
  | key :: value :: _ =>
    if key ≠ [] ∧ value ≠ [] then mapSet m key value else m
  | _ => m

/-- `DataUri.parseMetaData`, embedded over the URI path as a character
list: the metadata region is `path.substring(indexOf(';') + 1,
lastIndexOf(';'))`, split on `;` and folded through the callback; the
mime is `path.substring(0, indexOf(';'))`, stored under `mime` when
non-empty. -/
def parseMetaData (path : List Char) : List (List Char × List Char) :=
  let meta := jsSubstring path (jsIndexOf ';' path + 1) (jsLastIndexOf ';' path)
  let metadata := (splitOnChar ';' meta).foldl tokenStep []
  let mime := jsSubstring path 0 (jsIndexOf ';' path)
  if mime ≠ [] then mapSet metadata META_DATA_MIME mime else metadata

/-- Splitting a token once at its first `:`, per the spec's words "split
once on ':'": the part before the first `:` and everything after it;
no result when the token has no `:`. -/
def splitOnceColon (prop : List Char) : Option (List Char × List Char) :=
  match idxOf? ':' prop with
  | some k => some (prop.take k, prop.drop (k + 1))
  | none => none

/-- Modelled from the spec (step 2 of the reference algorithm): split
the token once on `:`; if both key and value are non-empty, insert with
last-write-wins; a token with a missing key or value is skipped. -/
def specTokenStep (m : List (List Char × List Char)) (prop : List Char) :
    List (List Char × List Char) :=
  match splitOnceColon prop with
  | some (key, value) =>
    if key ≠ [] ∧ value ≠ [] then mapSet m key value else m
  | none => m

/-- Modelled from the spec: the three-step reference algorithm.  Step 1
takes the substring strictly between the first `;` and the last `;` and
splits it on `;`; step 2 handles each token via `specTokenStep`; step 3
stores the substring before the first `;` under `mime` when non-empty.
A path with no `;` yields an empty mapping. -/
def specParseMetaData (path : List Char) : List (List Char × List Char) :=
  match idxOf? ';' path, lastIdxOf? ';' path with
  | some i, some j =>
    let meta := (path.drop (i + 1)).take (j - (i + 1))
    let m := (splitOnChar ';' meta).foldl specTokenStep []
    let mime := path.take i
    if mime ≠ [] then mapSet m META_DATA_MIME mime else m
  | _, _ => []

/-- The reference algorithm with step 2 amended to the source's token
handling: split the token on `:` and keep only the first two fields as
key and value. -/
def amendedParseMetaData (path : List Char) : List (List Char × List Char) :=
  match idxOf? ';' path, lastIdxOf? ';' path with
  | some i, some j =>
    let meta := (path.drop (i + 1)).take (j - (i + 1))
    let m := (splitOnChar ';' meta).foldl tokenStep []
    let mime := path.take i
    if mime ≠ [] then mapSet m META_DATA_MIME mime else m
  | _, _ => []

end DataUri

namespace DataUri

lemma idxOf?_eq_none_iff (c : Char) (l : List Char) :
    idxOf? c l = none ↔ c ∉ l := by
  induction l with
  | nil => simp [idxOf?]
  | cons x xs ih =>
    rcases eq_or_ne x c with rfl | h
    · simp [idxOf?]
    · simp [idxOf?, h, Ne.symm h, ih]

lemma lastIdxOf?_eq_none_iff (c : Char) (l : List Char) :
    lastIdxOf? c l = none ↔ c ∉ l := by
  induction l with
  | nil => simp [lastIdxOf?]
  | cons x xs ih =>
    rw [lastIdxOf?]
    rcases hx : lastIdxOf? c xs with _ | k
    · rcases eq_or_ne x c with rfl | h
      · simp
      · simp [h, Ne.symm h, ih.mp hx]
    · have hmem : c ∈ xs := by
        by_contra hc
        simp [ih.mpr hc] at hx
      simp [hmem]

lemma lastIdxOf?_lt_length (c : Char) (l : List Char) (j : Nat)
    (h : lastIdxOf? c l = some j) : j < l.length := by
  induction l generalizing j with
  | nil => simp [lastIdxOf?] at h
  | cons x xs ih =>
    rw [lastIdxOf?] at h
    rcases hx : lastIdxOf? c xs with _ | k
    · rw [hx] at h
      by_cases hxc : x == c
      · rw [if_pos hxc] at h
        obtain rfl : (0 : Nat) = j := Option.some.inj h
        simp
      · rw [if_neg hxc] at h
        exact absurd h (by simp)
    · rw [hx] at h
      obtain rfl : k + 1 = j := Option.some.inj h
      have hk := ih k hx
      simp only [List.length_cons]
      omega

lemma idxOf?_le_lastIdxOf? (c : Char) (l : List Char) (i j : Nat)
    (hi : idxOf? c l = some i) (hj : lastIdxOf? c l = some j) : i ≤ j := by
  induction l generalizing i j with
  | nil => simp [idxOf?] at hi
  | cons x xs ih =>
    rw [idxOf?] at hi
    rw [lastIdxOf?] at hj
    by_cases hx : x == c
    · rw [if_pos hx] at hi
      obtain rfl : (0 : Nat) = i := Option.some.inj hi
      exact Nat.zero_le j
    · rw [if_neg hx] at hi
      rcases hi' : idxOf? c xs with _ | i'
      · rw [hi'] at hi; simp at hi
      · rw [hi'] at hi
        simp only [Option.map_some'] at hi
        obtain rfl : i' + 1 = i := Option.some.inj hi
        rcases hj' : lastIdxOf? c xs with _ | k
        · rw [hj'] at hj
          rw [if_neg hx] at hj
          exact absurd hj (by simp)
        · rw [hj'] at hj
          obtain rfl : k + 1 = j := Option.some.inj hj
          have := ih i' k hi' hj'
          omega

lemma idxOf?_drop (c : Char) (l : List Char) (i : Nat)
    (h : idxOf? c l = some i) : l.drop i = c :: l.drop (i + 1) := by
  induction l generalizing i with
  | nil => simp [idxOf?] at h
  | cons x xs ih =>
    rw [idxOf?] at h
    by_cases hx : x == c
    · rw [if_pos hx] at h
      obtain rfl : (0 : Nat) = i := Option.some.inj h
      simp [eq_of_beq hx]
    · rw [if_neg hx] at h
      rcases hi' : idxOf? c xs with _ | i'
      · rw [hi'] at h; simp at h
      · rw [hi'] at h
        simp only [Option.map_some'] at h
        obtain rfl : i' + 1 = i := Option.some.inj h
        simpa using ih i' hi'

lemma jsSubstring_nonpos (l : List Char) (a b : Int) (ha : a ≤ 0) (hb : b ≤ 0) :
    jsSubstring l a b = [] := by
  simp only [jsSubstring]
  have h1 : (min a (l.length : Int)).toNat = 0 := by omega
  have h2 : (min b (l.length : Int)).toNat = 0 := by omega
  rw [h1, h2]
  simp

lemma jsSubstring_coe (l : List Char) (a b : Nat) (ha : a ≤ l.length) (hb : b ≤ l.length) :
    jsSubstring l (a : Int) (b : Int) =
      (l.drop (min a b)).take (max a b - min a b) := by
  simp only [jsSubstring]
  have h1 : (min (a : Int) (l.length : Int)).toNat = a := by omega
  have h2 : (min (b : Int) (l.length : Int)).toNat = b := by omega
  rw [h1, h2]

lemma parseMetaData_of_no_semi (path : List Char) (h : idxOf? ';' path = none) :
    parseMetaData path = [] := by
  have h2 : lastIdxOf? ';' path = none :=
    (lastIdxOf?_eq_none_iff ';' path).mpr ((idxOf?_eq_none_iff ';' path).mp h)
  simp only [parseMetaData, jsIndexOf, jsLastIndexOf, h, h2]
  rw [jsSubstring_nonpos path (-1 + 1) (-1) (by norm_num) (by norm_num),
    jsSubstring_nonpos path 0 (-1) (by norm_num) (by norm_num)]
  decide

end DataUri

/-- C8 counterexample: the spec's step 2 splits each token once on `:`,
keeping the remainder in the value; the code keeps only the first two
fields of the full split.  On the path `m;a:b:c;x` the code maps `a` to
`b` while the spec's algorithm maps `a` to `b:c`, so the two mappings
differ. -/
theorem c8_split_once_counterexample :
    DataUri.parseMetaData ['m', ';', 'a', ':', 'b', ':', 'c', ';', 'x'] ≠
      DataUri.specParseMetaData ['m', ';', 'a', ':', 'b', ':', 'c', ';', 'x'] := by
  decide

/-- C8 (amended): for every path, `parseMetaData` returns exactly the
mapping computed by the three-step reference algorithm with step 2
amended to take the first two `:`-separated fields of each token as key
and value (content after a second `:` is dropped). -/
theorem c8_parse_eq_amended_alg (path : List Char) :
    DataUri.parseMetaData path = DataUri.amendedParseMetaData path := by
  rcases h1 : DataUri.idxOf? ';' path with _ | i
  · rw [DataUri.parseMetaData_of_no_semi path h1]
    simp [DataUri.amendedParseMetaData, h1]
  · rcases h2 : DataUri.lastIdxOf? ';' path with _ | j
    · exfalso
      have hnot := (DataUri.lastIdxOf?_eq_none_iff ';' path).mp h2
      rw [← DataUri.idxOf?_eq_none_iff] at hnot
      simp [hnot] at h1
    · have hij : i ≤ j := DataUri.idxOf?_le_lastIdxOf? ';' path i j h1 h2
      have hjlen : j < path.length := DataUri.lastIdxOf?_lt_length ';' path j h2
      simp only [DataUri.parseMetaData, DataUri.amendedParseMetaData,
        DataUri.jsIndexOf, DataUri.jsLastIndexOf, h1, h2]
      have hci : ((i : Int) + 1) = ((i + 1 : Nat) : Int) := by push_cast; ring
      rw [hci, DataUri.jsSubstring_coe path (i + 1) j (by omega) (by omega),
        show (0 : Int) = ((0 : Nat) : Int) from rfl,
        DataUri.jsSubstring_coe path 0 i (by omega) (by omega)]
      have hmime : (path.drop (min 0 i)).take (max 0 i - min 0 i) = path.take i := by
        have e1 : min 0 i = 0 := by omega
        have e2 : max 0 i = i := by omega
        rw [e1, e2, Nat.sub_zero, List.drop_zero]
      rw [hmime]
      rcases Nat.lt_or_ge i j with hlt | hge
      · have e1 : min (i + 1) j = i + 1 := by omega
        have e2 : max (i + 1) j = j := by omega
        rw [e1, e2]
      · obtain rfl : j = i := by omega
        have e1 : min (j + 1) j = j := by omega
        have e2 : max (j + 1) j - j = 1 := by omega
        rw [e1, e2, DataUri.idxOf?_drop ';' path j h1]
        have e3 : j - (j + 1) = 0 := by omega
        rw [e3]
        have f1 : (DataUri.splitOnChar ';'
            ((';' :: path.drop (j + 1)).take 1)).foldl DataUri.tokenStep [] = [] := by
          rfl
        have f2 : (DataUri.splitOnChar ';'
            ((path.drop (j + 1)).take 0)).foldl DataUri.tokenStep [] = [] := by
          rfl
        rw [f1, f2]

/-- C9: `parseMetaData` is a total function (the straight-line source
raises no error on any input); a path containing no `;` yields the empty
mapping, and a token whose split has no second field, an empty first
field or an empty second field is skipped, leaving the mapping
unchanged. -/
theorem c9_no_semi_and_bad_tokens :
    (∀ path : List Char, ';' ∉ path → DataUri.parseMetaData path = []) ∧
    (∀ (m : List (List Char × List Char)) (prop : List Char),
      (DataUri.splitOnChar ':' prop).length < 2 ∨
        (DataUri.splitOnChar ':' prop).get? 0 = some [] ∨
        (DataUri.splitOnChar ':' prop).get? 1 = some [] →
      DataUri.tokenStep m prop = m) := by
  constructor
  · intro path hmem
    exact DataUri.parseMetaData_of_no_semi path
      ((DataUri.idxOf?_eq_none_iff ';' path).mpr hmem)
  · intro m prop h
    rcases hs : DataUri.splitOnChar ':' prop with _ | ⟨key, tail⟩
    · simp [DataUri.tokenStep, hs]
    · rcases tail with _ | ⟨value, rest⟩
      · simp [DataUri.tokenStep, hs]
      · rw [hs] at h
        simp only [DataUri.tokenStep, hs]
        have hkv : key = [] ∨ value = [] := by
          rcases h with h | h | h
          · simp only [List.length_cons] at h; omega
          · left; simpa using h
          · right; simpa using h
        rcases hkv with rfl | rfl <;> simp

/-- C9 witness: a concrete path with no `;` parses to the empty mapping,
and a concrete token with no `:` leaves the mapping unchanged. -/
theorem c9_no_semi_and_bad_tokens_witness :
    DataUri.parseMetaData ['a', 'b'] = [] ∧
    DataUri.tokenStep [] ['a', 'b'] = [] :=
  ⟨c9_no_semi_and_bad_tokens.1 ['a', 'b'] (by decide),
   c9_no_semi_and_bad_tokens.2 [] ['a', 'b'] (Or.inl (by decide))⟩
